import Mathlib

/-!
Verification of the VETTR ingestion engine
(`scripts/ingest/02_fetch_yfinance_data.py`).

The script is shallowly embedded: numbers returned by the provider are
modelled as exact rationals (`ℚ`) and integers (`ℤ`), Python dictionaries
as ordered association lists, and the provider / the output-file system as
explicit oracle parameters.  Wall-clock timestamps (`started_at`,
`last_updated`, `fetched_at`) and purely cosmetic fields of the per-ticker
document (`name`, `sector`, `officers`, `raw_info_keys`) are elided: no
verified property mentions them.
-/

/-! ## Python numeric primitives used by the script -/

attribute [local semireducible] Rat.add Rat.sub Rat.mul Rat.inv

deriving instance DecidableEq for Except

/-- Round a rational to the nearest integer, ties to even
(the rounding used by Python's builtin `round`). -/
def roundHalfEven (q : ℚ) : ℤ :=
  let f : ℤ := Rat.floor q
  let frac : ℚ := q - (f : ℚ)
  if frac < 1/2 then f
  else if 1/2 < frac then f + 1
  else if f % 2 = 0 then f else f + 1

/-- Python `round(q, ndigits)` on exact rationals. -/
def pyRound (q : ℚ) (ndigits : ℕ) : ℚ :=
  (roundHalfEven (q * (10 : ℚ) ^ ndigits) : ℚ) / (10 : ℚ) ^ ndigits

/-- Python `int(q)`: truncation toward zero. -/
def pyInt (q : ℚ) : ℤ :=
  if 0 ≤ q then Rat.floor q else Rat.ceil q

/-- Python `a or b` on optional numbers: `a` is falsy when it is
`None` *or zero*, in which case `b` is taken
(used by `info.get("currentPrice") or info.get("regularMarketPrice")`). -/
def pyOrQ : Option ℚ → Option ℚ → Option ℚ
  | some x, b => if x = 0 then b else some x
  | none, b => b

/-- Decimal digits of `n`, least significant first, as characters. -/
def pyCommaDigits (n : ℕ) : List Char :=
  (toString n).data.reverse

/-- Python format `f"{n:,.0f}"` for an integer value: decimal digits
grouped in threes by commas, with a leading minus sign when negative. -/
def pyCommaFormat (n : ℤ) : String :=
  let grouped := (List.intercalate [','] (List.toChunks 3 (pyCommaDigits n.natAbs))).reverse
  (if n < 0 then "-" else "") ++ String.mk grouped

/-! ## Provider response model

`yfinance` is the external data provider.  A call to it either raises
(`raises`) or yields an `info` dictionary plus three supplementary
resources (balance sheet, income statement, news), each of which may
itself raise when accessed — the script wraps each access in its own
`try/except: pass`.  `NaN` cells of the statement frames are modelled as
`none` (the script maps ``v if v == v else None``). -/

structure ProviderInfo where
  regularMarketPrice : Option ℚ := none
  currentPrice : Option ℚ := none
  previousClose : Option ℚ := none
  marketCap : Option ℤ := none
  totalCash : Option ℚ := none
  totalDebt : Option ℚ := none
  researchDevelopment : Option ℚ := none
  operatingExpenses : Option ℚ := none
  totalRevenue : Option ℚ := none
  sharesOutstanding : Option ℚ := none
  heldPercentInsiders : Option ℚ := none
  averageVolume : Option ℚ := none
  operatingCashflow : Option ℚ := none
  deriving DecidableEq

/-- One raw news item as returned by the provider; every field is
optional, the script substitutes defaults via `item.get(key, default)`. -/
structure RawNewsItem where
  title : Option String := none
  publisher : Option String := none
  link : Option String := none
  providerPublishTime : Option ℤ := none
  deriving DecidableEq

/-- A normalized news item as stored in the per-ticker document. -/
structure NewsItem where
  title : String
  publisher : String
  link : String
  published : ℤ
  deriving DecidableEq

/-- A successful top-level provider call: the `info` dictionary plus the
three supplementary resources.  `Except.error` for a supplementary
resource models its accessor raising; `Except.ok []` models an absent or
empty frame / news list. -/
structure ProviderOk where
  info : ProviderInfo
  balance_sheet : Except Unit (List (String × Option ℚ)) := .ok []
  income_stmt : Except Unit (List (String × Option ℚ)) := .ok []
  news : Except Unit (List RawNewsItem) := .ok []
  deriving DecidableEq

/-- A provider call as seen by `fetch_ticker_data`: it either raises
(caught by the outermost `try`, stringified) or returns data. -/
inductive ProviderResponse where
  | raises (msg : String)
  | ok (r : ProviderOk)
  deriving DecidableEq

/-! ## Configuration constants (lines 27-30 of the script) -/

def MARKET_CAP_MIN : ℤ := 10000000
def MARKET_CAP_MAX : ℤ := 10000000000
def BATCH_SIZE : ℕ := 20

/-- `compute_vettr_ticker`: strip the exchange suffix
(`symbol.split(".")[0]`). -/
def compute_vettr_ticker (symbol : String) : String :=
  (symbol.splitOn ".").headD symbol

/-! ## The per-ticker output document -/

structure TickerData where
  yfinance_ticker : String
  vettr_ticker : String
  exchange : String
  market_cap : ℤ
  price : Option ℚ
  previous_close : Option ℚ
  price_change : Option ℚ
  cash : Option ℚ
  monthly_burn : Option ℚ
  total_debt : Option ℚ
  total_assets : Option ℚ
  exploration_exp : Option ℚ
  r_and_d_exp : Option ℚ
  total_opex : Option ℚ
  g_and_a_expense : Option ℚ
  revenue : Option ℚ
  shares_current : Option ℚ
  shares_1yr_ago : Option ℚ
  insider_shares : Option ℤ
  total_shares : Option ℚ
  avg_vol_30d : Option ℚ
  days_since_last_pr : Option ℤ
  news_items : List NewsItem
  held_percent_insiders : Option ℚ
  operating_cashflow : Option ℚ
  total_revenue : Option ℚ
  deriving DecidableEq

/-- Dictionary `get` on an association list: `none` when the key is
absent, the stored (possibly null) value when present. -/
def frameGet (frame : List (String × Option ℚ)) (key : String) : Option ℚ :=
  match frame with
  | [] => none
  | (k, v) :: t => if k = key then v else frameGet t key

/-- Lines 220-227: days since the most recent news item, `None` unless
some news exists and the latest timestamp is positive.  `timedelta.days`
floors toward minus infinity, hence `Int.fdiv`. -/
def daysSinceLastPr (news : List NewsItem) (nowTs : ℤ) : Option ℤ :=
  match news.map (fun it => it.published) with
  | [] => none
  | t :: ts =>
    let latest := ts.foldl max t
    if 0 < latest then some (Int.fdiv (nowTs - latest) 86400) else none

/-- Lines 229-291: build the per-ticker output dictionary from the
`info` bundle, the (already unwrapped) supplementary sections and the
normalized news list, then fill in the three derived fields. -/
def buildTickerData (info : ProviderInfo)
    (balance_sheet income_stmt : List (String × Option ℚ))
    (news : List NewsItem) (yf_ticker exchange : String) (nowTs : ℤ)
    (market_cap : ℤ) : TickerData :=
  let price := pyOrQ info.currentPrice info.regularMarketPrice
  let previous_close := info.previousClose
  let total_opex := info.operatingExpenses
  let revenue := info.totalRevenue
  let shares_current := info.sharesOutstanding
  let held_percent_insiders := info.heldPercentInsiders
  { yfinance_ticker := yf_ticker
    vettr_ticker := compute_vettr_ticker yf_ticker
    exchange := exchange
    market_cap := market_cap
    price := price
    previous_close := previous_close
    price_change :=
      match price, previous_close with
      | some current, some prev => some (pyRound (current - prev) 4)
      | _, _ => none
    cash := info.totalCash
    monthly_burn :=
      match total_opex, revenue with
      | some opex, some rev => some (pyRound ((opex - rev) / 12) 2)
      | _, _ => none
    total_debt := info.totalDebt
    total_assets := frameGet balance_sheet "Total Assets"
    exploration_exp := none
    r_and_d_exp := info.researchDevelopment
    total_opex := total_opex
    g_and_a_expense := frameGet income_stmt "Selling General And Administration"
    revenue := revenue
    shares_current := shares_current
    shares_1yr_ago := none
    insider_shares :=
      match shares_current, held_percent_insiders with
      | some shares, some pct => some (pyInt (shares * pct))
      | _, _ => none
    total_shares := info.sharesOutstanding
    avg_vol_30d := info.averageVolume
    days_since_last_pr := daysSinceLastPr news nowTs
    news_items := news
    held_percent_insiders := held_percent_insiders
    operating_cashflow := info.operatingCashflow
    total_revenue := info.totalRevenue }

/-- Unwrap a supplementary statement frame: an exception (`try/except:
pass`) or an absent/empty frame both leave the section empty. -/
def exceptFrame : Except Unit (List (String × Option ℚ)) → List (String × Option ℚ)
  | .ok l => l
  | .error _ => []

/-- Lines 194-207: normalize the news list, keeping the first 10 items
and substituting the `.get` defaults; an exception yields no news. -/
def normNews : Except Unit (List RawNewsItem) → List NewsItem
  | .ok l =>
    (l.take 10).map (fun item =>
      { title := item.title.getD ""
        publisher := item.publisher.getD ""
        link := item.link.getD ""
        published := item.providerPublishTime.getD 0 })
  | .error _ => []

/-- The outcome of `fetch_ticker_data` — the `(data, status, reason)`
triple collapsed into one sum. -/
inductive FetchResult where
  | completedR (d : TickerData)
  | noDataR (reason : String)
  | skippedR (reason : String)
  | failedR (reason : String)
  deriving DecidableEq

/-- Lines 152-295: `fetch_ticker_data`, as a function of the provider
response and the wall clock. -/
def fetch_ticker_data (resp : ProviderResponse) (yf_ticker exchange : String)
    (nowTs : ℤ) : FetchResult :=
  match resp with
  | .raises msg => .failedR msg
  | .ok r =>
    let info := r.info
    if info.regularMarketPrice = none ∧ info.currentPrice = none then
      .noDataR "No market data available"
    else
      match info.marketCap with
      | none => .skippedR "No market cap data"
      | some market_cap =>
        if market_cap < MARKET_CAP_MIN then
          .skippedR ("Market cap $" ++ pyCommaFormat market_cap ++ " below $10M minimum")
        else if MARKET_CAP_MAX < market_cap then
          .skippedR ("Market cap $" ++ pyCommaFormat market_cap ++ " above $10B maximum")
        else
          .completedR (buildTickerData info (exceptFrame r.balance_sheet)
            (exceptFrame r.income_stmt) (normNews r.news) yf_ticker exchange
            nowTs market_cap)


/-! ## The ingestion status store

`data/ingestion_status.json` holds a dictionary from yfinance ticker to a
per-ticker progress record, plus aggregate counters.  Python dictionaries
are modelled as insertion-ordered association lists with unique keys
(lookups take the first match).  `started_at` / `last_updated` wall-clock
timestamps are elided. -/

/-- One per-ticker progress record (lines 322-327 and 375-399).  The
`market_cap` / `vettr_ticker` keys are added only on completion, hence
`Option` fields that start out `none`. -/
structure TickerRecord where
  status : String
  symbol : String
  exchange : String
  reason : Option String
  market_cap : Option ℤ := none
  vettr_ticker : Option String := none
  deriving DecidableEq

abbrev Store := List (String × TickerRecord)

/-- Python `status["tickers"].get(k)` / `k in status["tickers"]`. -/
def dictLookup : Store → String → Option TickerRecord
  | [], _ => none
  | (k, v) :: t, key => if k = key then some v else dictLookup t key

/-- The dictionary's key sequence, in insertion order. -/
def storeKeys (st : Store) : List String := st.map Prod.fst

/-- In-place mutation of the record stored under `tk`
(`ticker_info["status"] = ...` through the shared reference). -/
def updateRec (st : Store) (tk : String) (f : TickerRecord → TickerRecord) : Store :=
  st.map (fun p => if p.1 = tk then (p.1, f p.2) else p)

/-- The status of the record stored under `k`, if any. -/
def statusOf (st : Store) (k : String) : Option String :=
  (dictLookup st k).map (fun r => r.status)

/-- Aggregate counters. -/
structure Stats where
  total : ℕ
  completed : ℕ
  failed : ℕ
  skipped : ℕ
  pending : ℕ
  deriving DecidableEq

/-- Lines 63-71 of `save_status`: recompute the aggregate counters from
the authoritative mapping. -/
def summarize (tickers : Store) : Stats :=
  { total := tickers.length
    completed := (tickers.filter (fun v => decide (v.2.status = "completed"))).length
    failed := (tickers.filter (fun v => decide (v.2.status = "failed"))).length
    skipped := (tickers.filter (fun v => decide (v.2.status = "skipped"))).length
    pending := (tickers.filter (fun v => decide (v.2.status = "pending"))).length }

/-- The whole durable status document. -/
structure StatusDoc where
  tickers : Store
  stats : Stats
  deriving DecidableEq

/-- `load_status` when no file exists (lines 45-56): empty store, zeroed
counters. -/
def load_status_empty : StatusDoc :=
  { tickers := [], stats := ⟨0, 0, 0, 0, 0⟩ }

/-- Lines 59-74, the in-memory effect of `save_status`: counters are
recomputed from the mapping; the mapping itself is untouched. -/
def save_status (doc : StatusDoc) : StatusDoc :=
  { doc with stats := summarize doc.tickers }

/-- One discovered entity from `tickers_raw.json`. -/
structure EntityRef where
  yfinance_ticker : String
  symbol : String
  exchange : String
  deriving DecidableEq

/-- Lines 319-327: merge the discovered catalog into the store — insert a
fresh Pending record for each ticker not already present, leave existing
records untouched. -/
def initTickers (catalog : List EntityRef) (st : Store) : Store :=
  catalog.foldl
    (fun acc t =>
      if (dictLookup acc t.yfinance_ticker).isSome then acc
      else acc ++ [(t.yfinance_ticker,
        { status := "pending", symbol := t.symbol, exchange := t.exchange,
          reason := none })])
    st

/-- Lines 332-336: the pending snapshot, in dictionary (= insertion)
order. -/
def pendingTickers (st : Store) : List String :=
  (st.filter (fun p => decide (p.2.status = "pending"))).map Prod.fst

/-! ## The batch loop (lines 355-422)

Per-ticker processing is driven by two oracles: `o tk` is the outcome of
`fetch_ticker_data` for `tk`, and `w tk` is `none` when writing
`stock_data/{tk}.json` succeeds, `some msg` when it raises (the message
is the stringified exception caught by the `except` at line 397).  The
set of tickers whose output file currently holds a complete record is
carried as a list `recs`; a failed write truncates the file
(`open(path, "w")`), removing any previous complete record. -/

/-- The in-place record mutation performed for one processed ticker by
lines 369-400. -/
def applyFun (o : String → FetchResult) (w : String → Option String) (tk : String) :
    TickerRecord → TickerRecord := fun r =>
  match o tk with
  | .completedR d =>
    match w tk with
    | none =>
      { r with
        status := "completed"
        reason := none
        market_cap := some d.market_cap
        vettr_ticker := some d.vettr_ticker }
    | some e => { r with status := "failed", reason := some e }
  | .skippedR rs => { r with status := "skipped", reason := some rs }
  | .noDataR rs =>
    { r with
      status := "skipped"
      reason := some (if rs = "" then "No data" else rs) }
  | .failedR rs =>
    { r with
      status := "failed"
      reason := some (if rs = "" then "Unknown error" else rs) }

/-- The effect of one processed ticker on the per-ticker output store:
a successful completed fetch writes the record (lines 370-373); a write
that raises leaves a truncated file, destroying any previous record;
other outcomes do not touch the file. -/
def recsStep (o : String → FetchResult) (w : String → Option String) (tk : String)
    (recs : List String) : List String :=
  match o tk with
  | .completedR _ =>
    match w tk with
    | none => recs.insert tk
    | some _ => recs.erase tk
  | _ => recs

/-- The terminal status a processed ticker ends up with, as a function of
the two oracles (a view of `applyFun`). -/
def stepStatus (o : String → FetchResult) (w : String → Option String)
    (tk : String) : String :=
  match o tk with
  | .completedR _ =>
    match w tk with
    | none => "completed"
    | some _ => "failed"
  | .skippedR _ => "skipped"
  | .noDataR _ => "skipped"
  | .failedR _ => "failed"

/-- Process one ticker of a batch (lines 361-402). -/
def stepRun (o : String → FetchResult) (w : String → Option String)
    (acc : Store × List String) (tk : String) : Store × List String :=
  (updateRec acc.1 tk (applyFun o w tk), recsStep o w tk acc.2)

/-- Process a list of tickers sequentially. -/
def processList (o : String → FetchResult) (w : String → Option String)
    (acc : Store × List String) (tks : List String) : Store × List String :=
  tks.foldl (stepRun o w) acc

/-- The number of processed tickers already covered by a batch-boundary
`save_status` when the run dies after `n` processed tickers: saves happen
only after full batches of size `b` (line 404-405). -/
def savedCount (b n : ℕ) : ℕ := b * (n / b)

/-- The store as it stands right after the merge and the initial
`save_status` (line 329), i.e. the run's starting point. -/
def runStart (catalog : List EntityRef) (doc : StatusDoc) : StatusDoc :=
  save_status { doc with tickers := initTickers catalog doc.tickers }

/-- The pending snapshot the run iterates over (computed once, line
332). -/
def runPending (catalog : List EntityRef) (doc : StatusDoc) : List String :=
  pendingTickers (runStart catalog doc).tickers

/-- In-memory store and on-disk record files after the first `n` pending
tickers of the run have been processed. -/
def memAfter (o : String → FetchResult) (w : String → Option String)
    (catalog : List EntityRef) (doc : StatusDoc) (recs0 : List String)
    (n : ℕ) : Store × List String :=
  processList o w ((runStart catalog doc).tickers, recs0)
    ((runPending catalog doc).take n)

/-- The durable status document found on disk when the process is killed
after `n` processed tickers of the run: only the batches fully saved at
line 404-405 (plus the initial save at line 329) are visible. -/
def durableAfterCrash (o : String → FetchResult) (w : String → Option String)
    (catalog : List EntityRef) (doc : StatusDoc) (recs0 : List String)
    (b n : ℕ) : StatusDoc :=
  save_status
    { runStart catalog doc with
      tickers := (memAfter o w catalog doc recs0 (savedCount b n)).1 }

/-- A complete, uninterrupted run: merge, initial save, process the whole
pending snapshot, final save (line 422).  Returns the final durable
document, the record-file store, and the list of tickers the run
processed. -/
def runFull (o : String → FetchResult) (w : String → Option String)
    (catalog : List EntityRef) (doc : StatusDoc) (recs0 : List String) :
    StatusDoc × List String × List String :=
  let m := processList o w ((runStart catalog doc).tickers, recs0)
    (runPending catalog doc)
  (save_status { runStart catalog doc with tickers := m.1 }, m.2,
   runPending catalog doc)

/-! ## Durability of `save_status` (lines 73-74)

`save_status` writes with `open(STATUS_FILE, "w")` followed by
`json.dump(status, f, indent=2)`.  Opening with mode `"w"` truncates the
file immediately; the serialized text is then emitted left to right.  The
list of on-disk contents a crash can expose is therefore: the previous
content (crash before the `open`), and every prefix of the new serialized
text (crash after truncation / mid-write), the full new text being the
last entry.  The serializer below models `json.dump` of the status
document; indentation and the elided timestamp fields are abbreviated,
which is irrelevant to the crash-state structure. -/

def jsonStr (s : String) : String := "\"" ++ s ++ "\""

def jsonOptStr : Option String → String
  | none => "null"
  | some s => jsonStr s

def serializeRecord (r : TickerRecord) : String :=
  "\x7b\"status\": " ++ jsonStr r.status ++
  ", \"symbol\": " ++ jsonStr r.symbol ++
  ", \"exchange\": " ++ jsonStr r.exchange ++
  ", \"reason\": " ++ jsonOptStr r.reason ++
  (match r.market_cap with
   | none => ""
   | some m => ", \"market_cap\": " ++ toString m) ++
  (match r.vettr_ticker with
   | none => ""
   | some v => ", \"vettr_ticker\": " ++ jsonStr v) ++
  "\x7d"

def serializeStats (s : Stats) : String :=
  "\x7b\"total\": " ++ toString s.total ++
  ", \"completed\": " ++ toString s.completed ++
  ", \"failed\": " ++ toString s.failed ++
  ", \"skipped\": " ++ toString s.skipped ++
  ", \"pending\": " ++ toString s.pending ++ "\x7d"

def serializeDoc (doc : StatusDoc) : String :=
  "\x7b\"tickers\": \x7b" ++
  String.intercalate ", "
    (doc.tickers.map (fun p => jsonStr p.1 ++ ": " ++ serializeRecord p.2)) ++
  "\x7d, \"stats\": " ++ serializeStats doc.stats ++ "\x7d"

/-- All on-disk contents of the status file that a crash during
`save_status doc` can leave behind, the previous content `oldText`
first.  Index 1 is the state immediately after `open(..., "w")`
truncated the file. -/
def saveFileStates (oldText : String) (doc : StatusDoc) : List String :=
  let newText := serializeDoc (save_status doc)
  oldText :: (List.range (newText.length + 1)).map (fun i => newText.take i)

/-! ## Concrete sample values shared by the witnesses -/

/-- An info bundle carrying the spec's example numbers: price 10.5,
previous close 10, market cap $50M, opex $1.2M, revenue 0, 1,000,000
shares with 15% held by insiders. -/
def sampleInfo : ProviderInfo :=
  { currentPrice := some (Rat.divInt 21 2)
    previousClose := some 10
    marketCap := some 50000000
    operatingExpenses := some 1200000
    totalRevenue := some 0
    sharesOutstanding := some 1000000
    heldPercentInsiders := some (Rat.divInt 3 20) }

def sampleOk : ProviderOk := { info := sampleInfo }

def sampleData : TickerData :=
  buildTickerData sampleInfo [] [] [] "AAA.TO" "TSX" 0 50000000

/-- A store with a single pending record, and the catalog that produces
it. -/
def sampleRec : TickerRecord :=
  { status := "pending", symbol := "AAA", exchange := "TSX", reason := none }

def sampleCatalog : List EntityRef :=
  [{ yfinance_ticker := "AAA.TO", symbol := "AAA", exchange := "TSX" },
   { yfinance_ticker := "BBB.V", symbol := "BBB", exchange := "TSXV" }]

/-! ## Dictionary lemmas -/

theorem dictLookup_append_some {st : Store} {k : String} {r : TickerRecord}
    (h : dictLookup st k = some r) (l : Store) : dictLookup (st ++ l) k = some r := by
  induction st with
  | nil => simp [dictLookup] at h
  | cons p t ih =>
    by_cases hk : p.1 = k
    · simpa [dictLookup, hk] using h
    · simp only [dictLookup, hk, if_false, List.cons_append] at h ⊢
      exact ih h

theorem mem_storeKeys_iff {st : Store} {k : String} :
    k ∈ storeKeys st ↔ (dictLookup st k).isSome := by
  induction st with
  | nil => simp [storeKeys, dictLookup]
  | cons p t ih =>
    by_cases hk : p.1 = k
    · simp [storeKeys, dictLookup, hk]
    · simp only [storeKeys, List.map_cons, List.mem_cons, dictLookup, hk, if_false]
      rw [← storeKeys]
      simpa [hk, Ne.symm hk] using ih

theorem lookup_updateRec_ne {st : Store} {k tk : String} (f : TickerRecord → TickerRecord)
    (h : k ≠ tk) : dictLookup (updateRec st tk f) k = dictLookup st k := by
  induction st with
  | nil => simp [updateRec, dictLookup]
  | cons p t ih =>
    simp only [updateRec, List.map_cons] at ih ⊢
    by_cases hp : p.1 = tk
    · rw [if_pos hp]
      have hpk : p.1 ≠ k := fun hc => h (hc.symm.trans hp)
      have htk : tk ≠ k := fun hc => h hc.symm
      simp only [dictLookup, htk, if_false, hpk, ih]
    · rw [if_neg hp]
      by_cases hk : p.1 = k
      · simp only [dictLookup, hk, if_true]
      · simp only [dictLookup, hk, if_false, ih]

theorem lookup_updateRec_self {st : Store} {tk : String}
    (f : TickerRecord → TickerRecord) :
    dictLookup (updateRec st tk f) tk = (dictLookup st tk).map f := by
  induction st with
  | nil => simp [updateRec, dictLookup]
  | cons p t ih =>
    simp only [updateRec, List.map_cons] at ih ⊢
    by_cases hp : p.1 = tk
    · rw [if_pos hp]
      simp only [dictLookup, hp, if_true]
      rfl
    · rw [if_neg hp]
      simp only [dictLookup, hp, if_false, ih]

theorem keys_updateRec (st : Store) (tk : String) (f : TickerRecord → TickerRecord) :
    storeKeys (updateRec st tk f) = storeKeys st := by
  induction st with
  | nil => rfl
  | cons p t ih =>
    by_cases hp : p.1 = tk <;> simp [updateRec, storeKeys, hp] at ih ⊢ <;> exact ih

/-! ## Process-list lemmas -/

theorem processList_cons (o : String → FetchResult) (w : String → Option String)
    (acc : Store × List String) (tk : String) (tks : List String) :
    processList o w acc (tk :: tks) = processList o w (stepRun o w acc tk) tks := rfl

theorem stepRun_fst (o : String → FetchResult) (w : String → Option String)
    (acc : Store × List String) (tk : String) :
    (stepRun o w acc tk).1 = updateRec acc.1 tk (applyFun o w tk) := rfl

theorem applyFun_status (o : String → FetchResult) (w : String → Option String)
    (tk : String) (r : TickerRecord) :
    (applyFun o w tk r).status = stepStatus o w tk := by
  unfold applyFun stepStatus
  rcases o tk with d | rs | rs | rs
  · rcases w tk with _ | e <;> rfl
  · rfl
  · rfl
  · rfl

theorem stepStatus_ne_pending (o : String → FetchResult) (w : String → Option String)
    (tk : String) : stepStatus o w tk ≠ "pending" := by
  unfold stepStatus
  rcases o tk with d | rs | rs | rs
  · rcases w tk with _ | e
    · exact (by decide : ("completed" : String) ≠ "pending")
    · exact (by decide : ("failed" : String) ≠ "pending")
  · exact (by decide : ("skipped" : String) ≠ "pending")
  · exact (by decide : ("skipped" : String) ≠ "pending")
  · exact (by decide : ("failed" : String) ≠ "pending")

theorem keys_processList (o : String → FetchResult) (w : String → Option String)
    (acc : Store × List String) (tks : List String) :
    storeKeys (processList o w acc tks).1 = storeKeys acc.1 := by
  induction tks generalizing acc with
  | nil => rfl
  | cons a l ih =>
    rw [processList_cons, ih]
    exact keys_updateRec _ _ _

theorem lookup_processList_not_mem (o : String → FetchResult)
    (w : String → Option String) {tk : String} {tks : List String}
    (h : tk ∉ tks) (acc : Store × List String) :
    dictLookup (processList o w acc tks).1 tk = dictLookup acc.1 tk := by
  induction tks generalizing acc with
  | nil => rfl
  | cons a l ih =>
    have ha : tk ≠ a := fun hc => h (hc ▸ List.mem_cons_self a l)
    have hl : tk ∉ l := fun hc => h (List.mem_cons_of_mem a hc)
    rw [processList_cons, ih hl, stepRun_fst]
    exact lookup_updateRec_ne _ ha

theorem mem_recsStep_ne (o : String → FetchResult) (w : String → Option String)
    {tk a : String} (h : tk ≠ a) (recs : List String) :
    tk ∈ recsStep o w a recs ↔ tk ∈ recs := by
  unfold recsStep
  rcases o a with d | rs | rs | rs
  · rcases w a with _ | e
    · simp [List.mem_insert_iff, h]
    · exact List.mem_erase_of_ne h
  · rfl
  · rfl
  · rfl

theorem recs_processList_not_mem (o : String → FetchResult)
    (w : String → Option String) {tk : String} {tks : List String}
    (h : tk ∉ tks) (acc : Store × List String) :
    tk ∈ (processList o w acc tks).2 ↔ tk ∈ acc.2 := by
  induction tks generalizing acc with
  | nil => exact Iff.rfl
  | cons a l ih =>
    have ha : tk ≠ a := fun hc => h (hc ▸ List.mem_cons_self a l)
    have hl : tk ∉ l := fun hc => h (List.mem_cons_of_mem a hc)
    rw [processList_cons, ih hl]
    exact mem_recsStep_ne o w ha acc.2

/-! ## Pending-snapshot lemmas -/

theorem pendingTickers_sublist (st : Store) :
    (pendingTickers st).Sublist (storeKeys st) :=
  (List.filter_sublist st).map Prod.fst

theorem pendingTickers_nodup {st : Store} (h : (storeKeys st).Nodup) :
    (pendingTickers st).Nodup :=
  (pendingTickers_sublist st).nodup h

theorem mem_pendingTickers_keys {st : Store} {k : String}
    (h : k ∈ pendingTickers st) : k ∈ storeKeys st :=
  (pendingTickers_sublist st).subset h

theorem pendingTickers_cons_of_pending {p : String × TickerRecord} {t : Store}
    (h : p.2.status = "pending") :
    pendingTickers (p :: t) = p.1 :: pendingTickers t := by
  simp [pendingTickers, List.filter_cons, h]

theorem pendingTickers_cons_of_not_pending {p : String × TickerRecord} {t : Store}
    (h : ¬ p.2.status = "pending") :
    pendingTickers (p :: t) = pendingTickers t := by
  simp [pendingTickers, List.filter_cons, h]

theorem mem_pendingTickers_status {st : Store} {k : String}
    (hnd : (storeKeys st).Nodup) (h : k ∈ pendingTickers st) :
    statusOf st k = some "pending" := by
  induction st with
  | nil => simp [pendingTickers, List.filter] at h
  | cons p t ih =>
    have hnd' : (storeKeys t).Nodup := (List.nodup_cons.mp hnd).2
    have hhd : p.1 ∉ storeKeys t := (List.nodup_cons.mp hnd).1
    by_cases hs : p.2.status = "pending"
    · rw [pendingTickers_cons_of_pending hs] at h
      rcases List.mem_cons.mp h with hk | hk
      · simp [statusOf, dictLookup, hk.symm, hs]
      · have hkt : k ∈ storeKeys t := mem_pendingTickers_keys hk
        have hne : p.1 ≠ k := fun hc => hhd (hc ▸ hkt)
        simpa [statusOf, dictLookup, hne] using ih hnd' hk
    · rw [pendingTickers_cons_of_not_pending hs] at h
      have hkt : k ∈ storeKeys t := mem_pendingTickers_keys h
      have hne : p.1 ≠ k := fun hc => hhd (hc ▸ hkt)
      simpa [statusOf, dictLookup, hne] using ih hnd' h

theorem updateRec_not_mem {st : Store} {tk : String} (f : TickerRecord → TickerRecord)
    (h : tk ∉ storeKeys st) : updateRec st tk f = st := by
  induction st with
  | nil => rfl
  | cons p t ih =>
    have hne : p.1 ≠ tk := fun hc => h (hc ▸ List.mem_cons_self p.1 (storeKeys t))
    have ht : tk ∉ storeKeys t := fun hc => h (List.mem_cons_of_mem _ hc)
    simp only [updateRec, List.map_cons, if_neg hne]
    rw [← updateRec, ih ht]

theorem pendingTickers_updateRec_head {st : Store} {a : String} {rest : List String}
    {f : TickerRecord → TickerRecord}
    (hnd : (storeKeys st).Nodup) (hpend : pendingTickers st = a :: rest)
    (hf : ∀ r, (f r).status ≠ "pending") :
    pendingTickers (updateRec st a f) = rest := by
  induction st with
  | nil => simp [pendingTickers, List.filter] at hpend
  | cons p t ih =>
    have hnd' : (storeKeys t).Nodup := (List.nodup_cons.mp hnd).2
    have hhd : p.1 ∉ storeKeys t := (List.nodup_cons.mp hnd).1
    by_cases hs : p.2.status = "pending"
    · rw [pendingTickers_cons_of_pending hs] at hpend
      have ha : p.1 = a := (List.cons.injEq _ _ _ _ ▸ hpend).1
      have hrest : pendingTickers t = rest := (List.cons.injEq _ _ _ _ ▸ hpend).2
      have hat : a ∉ storeKeys t := ha ▸ hhd
      simp only [updateRec, List.map_cons, if_pos ha]
      rw [← updateRec, updateRec_not_mem f hat]
      have : (f p.2).status ≠ "pending" := hf p.2
      calc pendingTickers ((p.1, f p.2) :: t)
          = pendingTickers t := pendingTickers_cons_of_not_pending this
        _ = rest := hrest
    · rw [pendingTickers_cons_of_not_pending hs] at hpend
      have hat : a ∈ storeKeys t :=
        mem_pendingTickers_keys (hpend ▸ List.mem_cons_self a rest)
      have hne : p.1 ≠ a := fun hc => hhd (hc ▸ hat)
      simp only [updateRec, List.map_cons, if_neg hne]
      rw [← updateRec]
      calc pendingTickers (p :: updateRec t a f)
          = pendingTickers (updateRec t a f) := pendingTickers_cons_of_not_pending hs
        _ = rest := ih hnd' hpend

/-! ## Batch-loop lemmas -/

theorem applyFun_ne_pending (o : String → FetchResult) (w : String → Option String)
    (tk : String) (r : TickerRecord) : (applyFun o w tk r).status ≠ "pending" := by
  rw [applyFun_status]
  exact stepStatus_ne_pending o w tk

theorem pendingTickers_processList_take (o : String → FetchResult)
    (w : String → Option String) :
    ∀ (m : ℕ) (st : Store) (recs : List String), (storeKeys st).Nodup →
    pendingTickers (processList o w (st, recs) ((pendingTickers st).take m)).1
      = (pendingTickers st).drop m := by
  intro m
  induction m with
  | zero => intro st recs _; simp [processList]
  | succ m ih =>
    intro st recs hnd
    cases hp : pendingTickers st with
    | nil => simp [processList, hp]
    | cons a rest =>
      rw [List.take_succ_cons, processList_cons, List.drop_succ_cons]
      have hpend' : pendingTickers (updateRec st a (applyFun o w a)) = rest :=
        pendingTickers_updateRec_head hnd hp (applyFun_ne_pending o w a)
      have hnd' : (storeKeys (updateRec st a (applyFun o w a))).Nodup := by
        rw [keys_updateRec]; exact hnd
      have hstep : stepRun o w (st, recs) a
          = (updateRec st a (applyFun o w a), recsStep o w a recs) := rfl
      rw [hstep]
      have := ih (updateRec st a (applyFun o w a)) (recsStep o w a recs) hnd'
      rw [hpend'] at this
      exact this

theorem statusOf_processList_mem (o : String → FetchResult)
    (w : String → Option String) :
    ∀ {tks : List String}, tks.Nodup → ∀ {tk : String}, tk ∈ tks →
    ∀ (acc : Store × List String), (dictLookup acc.1 tk).isSome →
    statusOf (processList o w acc tks).1 tk = some (stepStatus o w tk) := by
  intro tks
  induction tks with
  | nil => intro _ tk htk; exact absurd htk (List.not_mem_nil tk)
  | cons a l ih =>
    intro hnd tk htk acc hkey
    have hnd' : l.Nodup := (List.nodup_cons.mp hnd).2
    rw [processList_cons]
    rcases List.mem_cons.mp htk with hka | hkl
    · subst hka
      have hnl : tk ∉ l := (List.nodup_cons.mp hnd).1
      unfold statusOf
      rw [lookup_processList_not_mem o w hnl, stepRun_fst, lookup_updateRec_self]
      rcases hsome : dictLookup acc.1 tk with _ | r
      · rw [hsome] at hkey; exact absurd hkey (by simp)
      · simp [Function.comp, applyFun_status]
    · have hne : tk ≠ a := fun hc => (List.nodup_cons.mp hnd).1 (hc ▸ hkl)
      have hkey' : (dictLookup (stepRun o w acc a).1 tk).isSome := by
        rw [stepRun_fst, lookup_updateRec_ne _ hne]
        exact hkey
      exact ih hnd' hkl (stepRun o w acc a) hkey'

theorem stepStatus_completed {o : String → FetchResult} {w : String → Option String}
    {tk : String} (h : stepStatus o w tk = "completed") :
    (∃ d, o tk = .completedR d) ∧ w tk = none := by
  unfold stepStatus at h
  rcases ho : o tk with d | rs | rs | rs <;> rw [ho] at h
  · rcases hw : w tk with _ | e <;> rw [hw] at h
    · exact ⟨⟨d, rfl⟩, rfl⟩
    · exact absurd h (by decide : ¬ ("failed" : String) = "completed")
  · exact absurd h (by decide : ¬ ("skipped" : String) = "completed")
  · exact absurd h (by decide : ¬ ("skipped" : String) = "completed")
  · exact absurd h (by decide : ¬ ("failed" : String) = "completed")

theorem mem_recs_processList_completed (o : String → FetchResult)
    (w : String → Option String) :
    ∀ {tks : List String}, tks.Nodup → ∀ {tk : String}, tk ∈ tks →
    stepStatus o w tk = "completed" → ∀ (acc : Store × List String),
    tk ∈ (processList o w acc tks).2 := by
  intro tks
  induction tks with
  | nil => intro _ tk htk; exact absurd htk (List.not_mem_nil tk)
  | cons a l ih =>
    intro hnd tk htk hcs acc
    have hnd' : l.Nodup := (List.nodup_cons.mp hnd).2
    rw [processList_cons]
    rcases List.mem_cons.mp htk with hka | hkl
    · subst hka
      have hnl : tk ∉ l := (List.nodup_cons.mp hnd).1
      rw [recs_processList_not_mem o w hnl]
      obtain ⟨⟨d, hd⟩, hw⟩ := stepStatus_completed hcs
      show tk ∈ recsStep o w tk acc.2
      unfold recsStep
      rw [hd, hw]
      exact List.mem_insert_self tk acc.2
    · exact ih hnd' hkl hcs (stepRun o w acc a)

/-! ## Merge lemmas -/

theorem initTickers_nil (st : Store) : initTickers [] st = st := rfl

theorem initTickers_cons (e : EntityRef) (cat : List EntityRef) (st : Store) :
    initTickers (e :: cat) st = initTickers cat
      (if (dictLookup st e.yfinance_ticker).isSome then st
       else st ++ [(e.yfinance_ticker,
         { status := "pending", symbol := e.symbol, exchange := e.exchange,
           reason := none })]) := rfl

theorem initTickers_lookup_present {cat : List EntityRef} {st : Store} {k : String}
    {r : TickerRecord} (h : dictLookup st k = some r) :
    dictLookup (initTickers cat st) k = some r := by
  induction cat generalizing st with
  | nil => exact h
  | cons e cs ih =>
    rw [initTickers_cons]
    by_cases hp : (dictLookup st e.yfinance_ticker).isSome
    · rw [if_pos hp]; exact ih h
    · rw [if_neg hp]; exact ih (dictLookup_append_some h _)

theorem dictLookup_append_single {st : Store} {k k2 : String} {v r : TickerRecord}
    (h : dictLookup (st ++ [(k2, v)]) k = some r) :
    dictLookup st k = some r ∨ (k2 = k ∧ v = r) := by
  induction st with
  | nil =>
    simp only [List.nil_append, dictLookup] at h
    by_cases hk : k2 = k
    · rw [if_pos hk] at h
      exact Or.inr ⟨hk, Option.some.inj h⟩
    · rw [if_neg hk] at h
      exact absurd h (by simp [dictLookup])
  | cons p t ih =>
    by_cases hk : p.1 = k
    · simp only [List.cons_append, dictLookup, if_pos hk] at h ⊢
      exact Or.inl h
    · simp only [List.cons_append, dictLookup, if_neg hk] at h ⊢
      exact ih h

theorem initTickers_lookup_cases {cat : List EntityRef} {st : Store} {k : String}
    {r : TickerRecord} (h : dictLookup (initTickers cat st) k = some r) :
    dictLookup st k = some r ∨ r.status = "pending" := by
  induction cat generalizing st with
  | nil => exact Or.inl h
  | cons e cs ih =>
    rw [initTickers_cons] at h
    by_cases hp : (dictLookup st e.yfinance_ticker).isSome
    · rw [if_pos hp] at h; exact ih h
    · rw [if_neg hp] at h
      rcases ih h with hst | hpend
      · rcases dictLookup_append_single hst with h1 | ⟨_, hv⟩
        · exact Or.inl h1
        · exact Or.inr (by rw [← hv])
      · exact Or.inr hpend

theorem initTickers_keys_mono {cat : List EntityRef} {st : Store} {k : String}
    (h : k ∈ storeKeys st) : k ∈ storeKeys (initTickers cat st) := by
  rw [mem_storeKeys_iff] at h ⊢
  rcases hsome : dictLookup st k with _ | r
  · rw [hsome] at h; exact absurd h (by simp)
  · rw [initTickers_lookup_present hsome]; rfl

theorem initTickers_mem_catalog {cat : List EntityRef} {st : Store} {e : EntityRef}
    (h : e ∈ cat) : e.yfinance_ticker ∈ storeKeys (initTickers cat st) := by
  induction cat generalizing st with
  | nil => exact absurd h (List.not_mem_nil e)
  | cons e0 cs ih =>
    rw [initTickers_cons]
    rcases List.mem_cons.mp h with he | he
    · subst he
      by_cases hp : (dictLookup st e.yfinance_ticker).isSome
      · rw [if_pos hp]
        exact initTickers_keys_mono (mem_storeKeys_iff.mpr hp)
      · rw [if_neg hp]
        refine initTickers_keys_mono ?_
        rw [storeKeys, List.map_append]
        exact List.mem_append_right _ (List.mem_singleton.mpr rfl)
    · by_cases hp : (dictLookup st e0.yfinance_ticker).isSome
      · rw [if_pos hp]; exact ih he
      · rw [if_neg hp]; exact ih he

theorem initTickers_noop {cat : List EntityRef} {st : Store}
    (h : ∀ e ∈ cat, e.yfinance_ticker ∈ storeKeys st) : initTickers cat st = st := by
  induction cat with
  | nil => rfl
  | cons e cs ih =>
    rw [initTickers_cons]
    have he : (dictLookup st e.yfinance_ticker).isSome :=
      mem_storeKeys_iff.mp (h e (List.mem_cons_self e cs))
    rw [if_pos he]
    exact ih (fun e2 h2 => h e2 (List.mem_cons_of_mem e h2))

theorem initTickers_keys_nodup {cat : List EntityRef} {st : Store}
    (h : (storeKeys st).Nodup) : (storeKeys (initTickers cat st)).Nodup := by
  induction cat generalizing st with
  | nil => exact h
  | cons e cs ih =>
    rw [initTickers_cons]
    by_cases hp : (dictLookup st e.yfinance_ticker).isSome
    · rw [if_pos hp]; exact ih h
    · rw [if_neg hp]
      refine ih ?_
      rw [storeKeys, List.map_append]
      have hne : e.yfinance_ticker ∉ storeKeys st := fun hc =>
        hp (mem_storeKeys_iff.mp hc)
      simp only [List.map_cons, List.map_nil]
      rw [List.nodup_append]
      exact ⟨h, List.nodup_singleton _,
        fun x hx hx2 => hne (by rwa [List.mem_singleton.mp hx2] at hx)⟩

/-! ## Aggregate-counter lemmas -/

theorem summarize_total_eq (tickers : Store)
    (h : ∀ p ∈ tickers, p.2.status = "completed" ∨ p.2.status = "failed" ∨
      p.2.status = "skipped" ∨ p.2.status = "pending") :
    (summarize tickers).total = (summarize tickers).completed
      + (summarize tickers).failed + (summarize tickers).skipped
      + (summarize tickers).pending := by
  induction tickers with
  | nil => rfl
  | cons p t ih =>
    have hp := h p (List.mem_cons_self p t)
    have iht := ih (fun q hq => h q (List.mem_cons_of_mem p hq))
    simp only [summarize, List.length_cons, List.filter_cons] at iht ⊢
    rcases hp with hs | hs | hs | hs <;> rw [hs] <;> simp <;> omega

/-! ## Claims -/

/-- C7: merge is idempotent — merging the same entity catalog twice
yields a store identical to merging it once, and records already present
are left untouched (lines 319-327). -/
theorem merge_idempotent :
    (∀ (cat : List EntityRef) (st : Store),
      initTickers cat (initTickers cat st) = initTickers cat st) ∧
    (∀ (cat : List EntityRef) (st : Store) (k : String) (r : TickerRecord),
      dictLookup st k = some r → dictLookup (initTickers cat st) k = some r) :=
  ⟨fun _ _ => initTickers_noop (fun _ he => initTickers_mem_catalog he),
   fun _ _ _ _ h => initTickers_lookup_present h⟩

/-- Witness for C7 at a concrete catalog and store. -/
theorem merge_idempotent_witness :
    initTickers sampleCatalog (initTickers sampleCatalog []) =
      initTickers sampleCatalog [] ∧
    dictLookup (initTickers sampleCatalog [("AAA.TO", sampleRec)]) "AAA.TO" =
      some sampleRec :=
  ⟨merge_idempotent.1 sampleCatalog [],
   merge_idempotent.2 sampleCatalog [("AAA.TO", sampleRec)] "AAA.TO" sampleRec
     (by decide)⟩

/-- C8: every save recomputes the aggregate counters purely from the
record mapping (`stats := summarize tickers`), leaves the mapping
untouched, and whenever every record's status is one of the four the
recomputed total equals completed + failed + skipped + pending. -/
theorem save_recomputes_stats :
    (∀ doc : StatusDoc, (save_status doc).stats = summarize doc.tickers) ∧
    (∀ doc : StatusDoc, (save_status doc).tickers = doc.tickers) ∧
    (∀ tickers : Store,
      (∀ p ∈ tickers, p.2.status = "completed" ∨ p.2.status = "failed" ∨
        p.2.status = "skipped" ∨ p.2.status = "pending") →
      (summarize tickers).total = (summarize tickers).completed
        + (summarize tickers).failed + (summarize tickers).skipped
        + (summarize tickers).pending) :=
  ⟨fun _ => rfl, fun _ => rfl, summarize_total_eq⟩

/-- Witness for C8 at a concrete document. -/
theorem save_recomputes_stats_witness :
    (save_status { tickers := [("AAA.TO", sampleRec)], stats := ⟨7, 7, 7, 7, 7⟩ }).stats
      = summarize [("AAA.TO", sampleRec)] ∧
    (summarize [("AAA.TO", sampleRec)]).total
      = (summarize [("AAA.TO", sampleRec)]).completed
        + (summarize [("AAA.TO", sampleRec)]).failed
        + (summarize [("AAA.TO", sampleRec)]).skipped
        + (summarize [("AAA.TO", sampleRec)]).pending :=
  ⟨save_recomputes_stats.1 _,
   save_recomputes_stats.2.2 [("AAA.TO", sampleRec)] (by decide)⟩

/-- C5: with a present size metric, a market capitalization exactly at
the configured minimum or maximum proceeds toward Completed, while a
value strictly below the minimum (resp. above the maximum) yields
Skipped with a reason string carrying the violated bound and the
comma-formatted observed value (lines 162-169). -/
theorem market_cap_filter_boundaries (r : ProviderOk) (yf ex : String)
    (nowTs : ℤ) (mc : ℤ)
    (hprice : ¬ (r.info.regularMarketPrice = none ∧ r.info.currentPrice = none))
    (hmc : r.info.marketCap = some mc) :
    ((mc = MARKET_CAP_MIN ∨ mc = MARKET_CAP_MAX) →
      fetch_ticker_data (.ok r) yf ex nowTs = .completedR
        (buildTickerData r.info (exceptFrame r.balance_sheet)
          (exceptFrame r.income_stmt) (normNews r.news) yf ex nowTs mc)) ∧
    (mc < MARKET_CAP_MIN →
      fetch_ticker_data (.ok r) yf ex nowTs
        = .skippedR ("Market cap $" ++ pyCommaFormat mc ++ " below $10M minimum")) ∧
    (MARKET_CAP_MAX < mc →
      fetch_ticker_data (.ok r) yf ex nowTs
        = .skippedR ("Market cap $" ++ pyCommaFormat mc ++ " above $10B maximum")) := by
  simp only [fetch_ticker_data]
  rw [if_neg hprice, hmc]
  refine ⟨?_, ?_, ?_⟩
  · rintro (heq | heq) <;> subst heq <;> simp [MARKET_CAP_MIN, MARKET_CAP_MAX]
  · intro hlt
    simp [hlt]
  · intro hgt
    have hnlt : ¬ mc < MARKET_CAP_MIN := by
      unfold MARKET_CAP_MIN
      unfold MARKET_CAP_MAX at hgt
      omega
    simp [hnlt, hgt]

/-- Witness for C5: market cap exactly $10M is completed; $9,999,999 is
skipped with the bound and the observed value in the reason. -/
theorem market_cap_filter_boundaries_witness :
    fetch_ticker_data
      (.ok { info := { currentPrice := some 1, marketCap := some 10000000 } })
      "AAA.TO" "TSX" 0
      = .completedR (buildTickerData
          { currentPrice := some 1, marketCap := some 10000000 } [] [] []
          "AAA.TO" "TSX" 0 10000000) ∧
    fetch_ticker_data
      (.ok { info := { currentPrice := some 1, marketCap := some 9999999 } })
      "AAA.TO" "TSX" 0
      = .skippedR ("Market cap $" ++ pyCommaFormat 9999999 ++ " below $10M minimum") :=
  ⟨(market_cap_filter_boundaries
      { info := { currentPrice := some 1, marketCap := some 10000000 } }
      "AAA.TO" "TSX" 0 10000000 (by decide) rfl).1 (Or.inl rfl),
   (market_cap_filter_boundaries
      { info := { currentPrice := some 1, marketCap := some 9999999 } }
      "AAA.TO" "TSX" 0 9999999 (by decide) rfl).2.1 (by decide)⟩

/-- C10: for an entity with a usable price signal and an in-band market
capitalization, the outcome is Completed for every combination of
supplementary-resource outcomes; a raising balance-sheet, income-statement
or news accessor is caught, leaving the corresponding section empty (and
the recency field null for news) — it never produces a Failed
classification (lines 177-207, 292-295). -/
theorem supplementary_failure_still_completed (info : ProviderInfo)
    (bs inc : Except Unit (List (String × Option ℚ)))
    (news : Except Unit (List RawNewsItem)) (yf ex : String) (nowTs : ℤ) (mc : ℤ)
    (hprice : ¬ (info.regularMarketPrice = none ∧ info.currentPrice = none))
    (hmc : info.marketCap = some mc)
    (hlo : MARKET_CAP_MIN ≤ mc) (hhi : mc ≤ MARKET_CAP_MAX) :
    fetch_ticker_data
      (.ok { info := info, balance_sheet := bs, income_stmt := inc, news := news })
      yf ex nowTs
      = .completedR (buildTickerData info (exceptFrame bs) (exceptFrame inc)
          (normNews news) yf ex nowTs mc) ∧
    (bs = .error () →
      (buildTickerData info (exceptFrame bs) (exceptFrame inc) (normNews news)
        yf ex nowTs mc).total_assets = none) ∧
    (inc = .error () →
      (buildTickerData info (exceptFrame bs) (exceptFrame inc) (normNews news)
        yf ex nowTs mc).g_and_a_expense = none) ∧
    (news = .error () →
      (buildTickerData info (exceptFrame bs) (exceptFrame inc) (normNews news)
        yf ex nowTs mc).news_items = [] ∧
      (buildTickerData info (exceptFrame bs) (exceptFrame inc) (normNews news)
        yf ex nowTs mc).days_since_last_pr = none) := by
  refine ⟨?_, ?_, ?_, ?_⟩
  · simp only [fetch_ticker_data]
    rw [if_neg hprice, hmc]
    have h1 : ¬ mc < MARKET_CAP_MIN := not_lt.mpr hlo
    have h2 : ¬ MARKET_CAP_MAX < mc := not_lt.mpr hhi
    simp [h1, h2]
  · rintro rfl; rfl
  · rintro rfl; rfl
  · rintro rfl; exact ⟨rfl, rfl⟩

/-- Witness for C10: every supplementary accessor raises, the record is
still Completed with empty sections and null recency. -/
theorem supplementary_failure_still_completed_witness :
    fetch_ticker_data
      (.ok { info := sampleInfo, balance_sheet := .error (), income_stmt := .error (),
             news := .error () }) "AAA.TO" "TSX" 0
      = .completedR (buildTickerData sampleInfo (exceptFrame (.error ()))
          (exceptFrame (.error ())) (normNews (.error ())) "AAA.TO" "TSX" 0 50000000) ∧
    (buildTickerData sampleInfo (exceptFrame (.error ())) (exceptFrame (.error ()))
      (normNews (.error ())) "AAA.TO" "TSX" 0 50000000).total_assets = none ∧
    (buildTickerData sampleInfo (exceptFrame (.error ())) (exceptFrame (.error ()))
      (normNews (.error ())) "AAA.TO" "TSX" 0 50000000).news_items = [] :=
  have h := supplementary_failure_still_completed sampleInfo (.error ()) (.error ())
    (.error ()) "AAA.TO" "TSX" 0 50000000 (by decide) rfl (by decide) (by decide)
  ⟨h.1, h.2.1 rfl, (h.2.2.2 rfl).1⟩

/-- C4 (amended): each derived field is presence-gated — null whenever a
required operand is absent — and, when all operands are present, equals
the Python-rounded formula the code computes: price change =
round(current − previous, 4 decimals), monthly burn =
round((opex − revenue)/12, 2 decimals), insider shares =
int-truncation of shares × insider fraction; recency is null with no
news.  The spec's examples hold: 10.5 − 10.0 → 0.5, (1,200,000 − 0)/12 →
100,000, 1,000,000 × 0.15 → 150,000 (lines 274-291, 220-227). -/
theorem derived_fields_presence_gated (info : ProviderInfo)
    (bs inc : List (String × Option ℚ)) (news : List NewsItem)
    (yf ex : String) (nowTs : ℤ) (mc : ℤ) :
    ((buildTickerData info bs inc news yf ex nowTs mc).price = none ∨
      (buildTickerData info bs inc news yf ex nowTs mc).previous_close = none →
      (buildTickerData info bs inc news yf ex nowTs mc).price_change = none) ∧
    (∀ c p, (buildTickerData info bs inc news yf ex nowTs mc).price = some c →
      (buildTickerData info bs inc news yf ex nowTs mc).previous_close = some p →
      (buildTickerData info bs inc news yf ex nowTs mc).price_change
        = some (pyRound (c - p) 4)) ∧
    ((buildTickerData info bs inc news yf ex nowTs mc).total_opex = none ∨
      (buildTickerData info bs inc news yf ex nowTs mc).revenue = none →
      (buildTickerData info bs inc news yf ex nowTs mc).monthly_burn = none) ∧
    (∀ a b, (buildTickerData info bs inc news yf ex nowTs mc).total_opex = some a →
      (buildTickerData info bs inc news yf ex nowTs mc).revenue = some b →
      (buildTickerData info bs inc news yf ex nowTs mc).monthly_burn
        = some (pyRound ((a - b) / 12) 2)) ∧
    ((buildTickerData info bs inc news yf ex nowTs mc).shares_current = none ∨
      (buildTickerData info bs inc news yf ex nowTs mc).held_percent_insiders = none →
      (buildTickerData info bs inc news yf ex nowTs mc).insider_shares = none) ∧
    (∀ s h, (buildTickerData info bs inc news yf ex nowTs mc).shares_current = some s →
      (buildTickerData info bs inc news yf ex nowTs mc).held_percent_insiders = some h →
      (buildTickerData info bs inc news yf ex nowTs mc).insider_shares
        = some (pyInt (s * h))) ∧
    (news = [] → (buildTickerData info bs inc news yf ex nowTs mc).days_since_last_pr
      = none) ∧
    sampleData.price_change = some (Rat.divInt 1 2) ∧
    sampleData.monthly_burn = some 100000 ∧
    sampleData.insider_shares = some 150000 := by
  refine ⟨?_, ?_, ?_, ?_, ?_, ?_, ?_, by decide, by decide, by decide⟩
  · rintro (h | h)
    · simp only [buildTickerData] at h ⊢
      rw [h]
    · simp only [buildTickerData] at h ⊢
      rw [h]
      cases pyOrQ info.currentPrice info.regularMarketPrice <;> rfl
  · intro c p hc hp
    simp only [buildTickerData] at hc hp ⊢
    rw [hc, hp]
  · rintro (h | h)
    · simp only [buildTickerData] at h ⊢
      rw [h]
    · simp only [buildTickerData] at h ⊢
      rw [h]
      cases info.operatingExpenses <;> rfl
  · intro a b ha hb
    simp only [buildTickerData] at ha hb ⊢
    rw [ha, hb]
  · rintro (h | h)
    · simp only [buildTickerData] at h ⊢
      rw [h]
    · simp only [buildTickerData] at h ⊢
      rw [h]
      cases info.sharesOutstanding <;> rfl
  · intro s h hs hh
    simp only [buildTickerData] at hs hh ⊢
    rw [hs, hh]
  · rintro rfl
    rfl

/-- C4 counterexample: for opex = 1, revenue = 0 the code stores
round((1 − 0)/12, 2) = 0.08, which differs from the exact
(opex − revenue)/12 = 1/12 demanded by the claim's "equals exactly". -/
theorem monthly_burn_rounding_counterexample :
    (buildTickerData
      { currentPrice := some 1, marketCap := some 50000000,
        operatingExpenses := some 1, totalRevenue := some 0 }
      [] [] [] "AAA.TO" "TSX" 0 50000000).monthly_burn = some (Rat.divInt 2 25) ∧
    Rat.divInt 2 25 ≠ ((1 : ℚ) - 0) / 12 :=
  ⟨by decide, by decide⟩

/-- Witness for C4 at the spec's example inputs. -/
theorem derived_fields_presence_gated_witness :
    (buildTickerData sampleInfo [] [] [] "AAA.TO" "TSX" 0 50000000).price_change
      = some (pyRound (Rat.divInt 21 2 - 10) 4) ∧
    (buildTickerData sampleInfo [] [] [] "AAA.TO" "TSX" 0 50000000).monthly_burn
      = some (pyRound ((1200000 - 0) / 12) 2) ∧
    (buildTickerData sampleInfo [] [] [] "AAA.TO" "TSX" 0 50000000).insider_shares
      = some (pyInt (1000000 * Rat.divInt 3 20)) ∧
    (buildTickerData sampleInfo [] [] [] "AAA.TO" "TSX" 0 50000000).days_since_last_pr
      = none :=
  have h := derived_fields_presence_gated sampleInfo [] [] [] "AAA.TO" "TSX" 0 50000000
  ⟨h.2.1 (Rat.divInt 21 2) 10 (by decide) rfl,
   h.2.2.2.1 1200000 0 rfl rfl,
   h.2.2.2.2.2.1 1000000 (Rat.divInt 3 20) rfl rfl,
   h.2.2.2.2.2.2.1 rfl⟩

/-- C6: terminal monotonicity — a record whose status is terminal
(≠ "pending") is left exactly as it is by each engine operation: the
catalog merge (lines 319-327), the batch run (which only processes the
pending snapshot, lines 332-405), and save (which never touches the
mapping, lines 59-74).  In particular no operation reverts it to
Pending. -/
theorem terminal_monotonicity :
    (∀ (cat : List EntityRef) (st : Store) (k : String) (r : TickerRecord),
      dictLookup st k = some r → dictLookup (initTickers cat st) k = some r) ∧
    (∀ (o : String → FetchResult) (w : String → Option String) (st : Store)
       (recs : List String) (k : String) (r : TickerRecord),
      (storeKeys st).Nodup → dictLookup st k = some r → r.status ≠ "pending" →
      dictLookup (processList o w (st, recs) (pendingTickers st)).1 k = some r) ∧
    (∀ doc : StatusDoc, (save_status doc).tickers = doc.tickers) := by
  refine ⟨fun _ _ _ _ h => initTickers_lookup_present h, ?_, fun _ => rfl⟩
  intro o w st recs k r hnd hk hs
  have hknp : k ∉ pendingTickers st := by
    intro hmem
    have hst := mem_pendingTickers_status hnd hmem
    rw [statusOf, hk] at hst
    exact hs (Option.some.inj hst)
  rw [lookup_processList_not_mem o w hknp]
  exact hk

/-- Witness for C6: a completed record survives a full batch run over a
store that also holds a pending ticker. -/
theorem terminal_monotonicity_witness :
    dictLookup
      (initTickers sampleCatalog
        [("CCC.CN", (⟨"completed", "CCC", "CSE", none, none, none⟩ : TickerRecord))]) "CCC.CN"
      = some (⟨"completed", "CCC", "CSE", none, none, none⟩ : TickerRecord) ∧
    dictLookup
      (processList (fun _ => .skippedR "x") (fun _ => none)
        ([("CCC.CN", (⟨"completed", "CCC", "CSE", none, none, none⟩ : TickerRecord)), ("AAA.TO", sampleRec)], [])
        (pendingTickers
          [("CCC.CN", (⟨"completed", "CCC", "CSE", none, none, none⟩ : TickerRecord)), ("AAA.TO", sampleRec)])).1 "CCC.CN"
      = some (⟨"completed", "CCC", "CSE", none, none, none⟩ : TickerRecord) :=
  ⟨terminal_monotonicity.1 sampleCatalog _ "CCC.CN" _ (by decide),
   terminal_monotonicity.2.1 (fun _ => .skippedR "x") (fun _ => none) _ [] "CCC.CN"
     (⟨"completed", "CCC", "CSE", none, none, none⟩ : TickerRecord)
     (by decide) (by decide) (by decide)⟩

/-- C3 counterexample: the engine has no InvalidTransition guard — the
status assignment of lines 381-383, applied to a record that is already
terminal, silently overwrites it instead of failing. -/
theorem apply_terminal_overwrites_silently :
    statusOf (stepRun (fun _ => .skippedR "second pass") (fun _ => none)
      ([("AAA.TO", (⟨"completed", "AAA", "TSX", none, none, none⟩ : TickerRecord))], []) "AAA.TO").1 "AAA.TO" = some "skipped" ∧
    ("skipped" : String) ≠ "completed" :=
  ⟨by decide, by decide⟩

/-- C3 (amended): the engine performs no source-state check and an
update of a non-Pending record would silently overwrite it; however,
every transition the batch loop actually performs has Pending as its
source state: when the m-th ticker of the pending snapshot comes up for
processing, its status at that moment is still "pending" (the snapshot
is duplicate-free and earlier steps touch other keys only). -/
theorem run_transitions_source_pending (o : String → FetchResult)
    (w : String → Option String) (st : Store) (recs : List String) (m : ℕ)
    (hnd : (storeKeys st).Nodup) (hm : m < (pendingTickers st).length) :
    statusOf (processList o w (st, recs) ((pendingTickers st).take m)).1
      ((pendingTickers st).get ⟨m, hm⟩) = some "pending" := by
  have hmem_drop : (pendingTickers st).get ⟨m, hm⟩ ∈ (pendingTickers st).drop m := by
    rw [List.drop_eq_getElem_cons hm]
    exact List.mem_cons_self _ _
  have hnodup_pend : (pendingTickers st).Nodup := pendingTickers_nodup hnd
  have hnot_take : (pendingTickers st).get ⟨m, hm⟩ ∉ (pendingTickers st).take m :=
    fun hmem_take =>
      (List.disjoint_take_drop hnodup_pend (le_refl m)) hmem_take hmem_drop
  rw [statusOf, lookup_processList_not_mem o w hnot_take, ← statusOf]
  exact mem_pendingTickers_status hnd (List.get_mem _ m hm)

/-- Witness for C3's amended theorem on a two-ticker pending store. -/
theorem run_transitions_source_pending_witness :
    statusOf (processList (fun _ => .skippedR "x") (fun _ => none)
      (([("AAA.TO", sampleRec), ("BBB.V", (⟨"pending", "BBB", "TSXV", none, none, none⟩ : TickerRecord))] : Store), [])
      ((pendingTickers [("AAA.TO", sampleRec), ("BBB.V", (⟨"pending", "BBB", "TSXV", none, none, none⟩ : TickerRecord))]).take 1)).1
      ((pendingTickers [("AAA.TO", sampleRec), ("BBB.V", (⟨"pending", "BBB", "TSXV", none, none, none⟩ : TickerRecord))]).get
        ⟨1, by decide⟩) = some "pending" :=
  run_transitions_source_pending (fun _ => .skippedR "x") (fun _ => none)
    [("AAA.TO", sampleRec),
     ("BBB.V", (⟨"pending", "BBB", "TSXV", none, none, none⟩ : TickerRecord))]
    [] 1 (by decide) (by decide)

theorem processList_append (o : String → FetchResult) (w : String → Option String)
    (acc : Store × List String) (l1 l2 : List String) :
    processList o w acc (l1 ++ l2) = processList o w (processList o w acc l1) l2 := by
  simp [processList, List.foldl_append]

theorem runStart_tickers (catalog : List EntityRef) (doc : StatusDoc) :
    (runStart catalog doc).tickers = initTickers catalog doc.tickers := rfl

theorem catalog_subset_keys_processed (o : String → FetchResult)
    (w : String → Option String) (catalog : List EntityRef) (doc : StatusDoc)
    (recs0 : List String) (tks : List String) :
    ∀ e ∈ catalog, e.yfinance_ticker ∈
      storeKeys (processList o w ((runStart catalog doc).tickers, recs0) tks).1 := by
  intro e he
  rw [keys_processList, runStart_tickers]
  exact initTickers_mem_catalog he

/-- C2 counterexample: two pending tickers, batch size 2, run killed
after the first processed ticker (k = 1 < b = 2).  Nothing was saved
mid-batch, so the durable store still holds the first ticker as Pending
— not terminal — and the resumed run's pending snapshot contains both
tickers, not only the remaining b − k = 1. -/
theorem resume_reprocesses_unsaved_entities :
    statusOf (durableAfterCrash (fun _ => .skippedR "x") (fun _ => none)
        sampleCatalog load_status_empty [] 2 1).tickers "AAA.TO" = some "pending" ∧
    runPending sampleCatalog (durableAfterCrash (fun _ => .skippedR "x")
        (fun _ => none) sampleCatalog load_status_empty [] 2 1)
      = ["AAA.TO", "BBB.V"] ∧
    (["AAA.TO", "BBB.V"] : List String) ≠ ["BBB.V"] :=
  ⟨by decide, by decide, by decide⟩

/-- C2 (amended): interrupting a run after `n` processed tickers makes
durable only the fully-saved batches (the first `b·⌊n/b⌋` tickers).
Those tickers are terminal in the durable store; the resumed run's
pending snapshot is exactly the rest of the original snapshot — all of
the interrupted batch (its unsaved `k = n mod b` tickers are re-processed
from Pending) plus the later batches; and the resumed run leaves every
terminal durable record byte-for-byte unchanged. -/
theorem resume_after_crash_amended (o : String → FetchResult)
    (w : String → Option String) (catalog : List EntityRef) (doc : StatusDoc)
    (recs0 recs1 : List String) (b n : ℕ)
    (hnd : (storeKeys doc.tickers).Nodup) :
    (runPending catalog (durableAfterCrash o w catalog doc recs0 b n)
      = (runPending catalog doc).drop (savedCount b n)) ∧
    (∀ tk ∈ (runPending catalog doc).take (savedCount b n),
      statusOf (durableAfterCrash o w catalog doc recs0 b n).tickers tk
        = some (stepStatus o w tk) ∧ stepStatus o w tk ≠ "pending") ∧
    (∀ (id : String) (r : TickerRecord),
      dictLookup (durableAfterCrash o w catalog doc recs0 b n).tickers id = some r →
      r.status ≠ "pending" →
      dictLookup (runFull o w catalog
          (durableAfterCrash o w catalog doc recs0 b n) recs1).1.tickers id
        = some r) := by
  have hnd1 : (storeKeys (initTickers catalog doc.tickers)).Nodup :=
    initTickers_keys_nodup hnd
  have hdt : (durableAfterCrash o w catalog doc recs0 b n).tickers
      = (processList o w (initTickers catalog doc.tickers, recs0)
          ((runPending catalog doc).take (savedCount b n))).1 := rfl
  have hpend1 : runPending catalog doc = pendingTickers (initTickers catalog doc.tickers) :=
    rfl
  have hkeysd : storeKeys (durableAfterCrash o w catalog doc recs0 b n).tickers
      = storeKeys (initTickers catalog doc.tickers) := by
    rw [hdt, keys_processList]
  have hnoop : initTickers catalog (durableAfterCrash o w catalog doc recs0 b n).tickers
      = (durableAfterCrash o w catalog doc recs0 b n).tickers := by
    refine initTickers_noop ?_
    intro e he
    rw [hkeysd]
    exact initTickers_mem_catalog he
  refine ⟨?_, ?_, ?_⟩
  · show pendingTickers (initTickers catalog
        (durableAfterCrash o w catalog doc recs0 b n).tickers)
      = (runPending catalog doc).drop (savedCount b n)
    rw [hnoop, hdt, hpend1]
    exact pendingTickers_processList_take o w (savedCount b n)
      (initTickers catalog doc.tickers) recs0 hnd1
  · intro tk htk
    refine ⟨?_, stepStatus_ne_pending o w tk⟩
    have hmem : tk ∈ runPending catalog doc := List.take_subset _ _ htk
    have hkey : (dictLookup (initTickers catalog doc.tickers) tk).isSome := by
      rw [← mem_storeKeys_iff]
      exact mem_pendingTickers_keys (hpend1 ▸ hmem)
    have hnodup_take : ((runPending catalog doc).take (savedCount b n)).Nodup :=
      (List.take_sublist _ _).nodup (hpend1 ▸ pendingTickers_nodup hnd1)
    rw [hdt]
    exact statusOf_processList_mem o w hnodup_take htk _ hkey
  · intro id r hid hrs
    have hidnp : id ∉ pendingTickers
        (durableAfterCrash o w catalog doc recs0 b n).tickers := by
      intro hmem
      have hst := mem_pendingTickers_status (hkeysd ▸ hnd1) hmem
      rw [statusOf, hid] at hst
      exact hrs (Option.some.inj hst)
    show dictLookup (processList o w
        ((runStart catalog (durableAfterCrash o w catalog doc recs0 b n)).tickers, recs1)
        (runPending catalog (durableAfterCrash o w catalog doc recs0 b n))).1 id = some r
    rw [show (runStart catalog (durableAfterCrash o w catalog doc recs0 b n)).tickers
        = (durableAfterCrash o w catalog doc recs0 b n).tickers from hnoop]
    rw [show runPending catalog (durableAfterCrash o w catalog doc recs0 b n)
        = pendingTickers (durableAfterCrash o w catalog doc recs0 b n).tickers by
      show pendingTickers (initTickers catalog
          (durableAfterCrash o w catalog doc recs0 b n).tickers) = _
      rw [hnoop]]
    rw [lookup_processList_not_mem o w hidnp]
    exact hid

/-- Witness for C2's amended theorem: crash right after a full batch of 2
(b = 2, n = 2) — the saved tickers are terminal, the resume snapshot is
empty, and the terminal records survive the resumed run unchanged. -/
theorem resume_after_crash_amended_witness :
    runPending sampleCatalog (durableAfterCrash (fun _ => .skippedR "x")
        (fun _ => none) sampleCatalog load_status_empty [] 2 2)
      = (runPending sampleCatalog load_status_empty).drop (savedCount 2 2) ∧
    statusOf (durableAfterCrash (fun _ => .skippedR "x") (fun _ => none)
        sampleCatalog load_status_empty [] 2 2).tickers "AAA.TO"
      = some (stepStatus (fun _ => .skippedR "x") (fun _ => none) "AAA.TO") ∧
    dictLookup (runFull (fun _ => .skippedR "x") (fun _ => none) sampleCatalog
        (durableAfterCrash (fun _ => .skippedR "x") (fun _ => none) sampleCatalog
          load_status_empty [] 2 2) []).1.tickers "AAA.TO"
      = some (⟨"skipped", "AAA", "TSX", some "x", none, none⟩ : TickerRecord) :=
  have h := resume_after_crash_amended (fun _ => .skippedR "x") (fun _ => none)
    sampleCatalog load_status_empty [] [] 2 2 (by decide)
  ⟨h.1, (h.2.1 "AAA.TO" (by decide)).1,
   h.2.2 "AAA.TO" (⟨"skipped", "AAA", "TSX", some "x", none, none⟩ : TickerRecord)
     (by decide) (by decide)⟩

/-- C9: if the durable status document produced by any crash point marks
an identifier Completed, then that identifier's output record is present
in the record store at that crash point: the record write (lines
370-373) happens, and must succeed, strictly before the in-memory
Completed mark (line 375), which only becomes durable at the
batch-boundary save (lines 404-405); a failed write marks the ticker
Failed instead.  `hinit` carries the same invariant for the store the
run started from. -/
theorem completed_implies_record_written (o : String → FetchResult)
    (w : String → Option String) (catalog : List EntityRef) (doc : StatusDoc)
    (recs0 : List String) (b n : ℕ)
    (hnd : (storeKeys doc.tickers).Nodup)
    (hinit : ∀ id, statusOf doc.tickers id = some "completed" → id ∈ recs0)
    (id : String)
    (hdc : statusOf (durableAfterCrash o w catalog doc recs0 b n).tickers id
      = some "completed") :
    id ∈ (memAfter o w catalog doc recs0 n).2 := by
  have hnd1 : (storeKeys (initTickers catalog doc.tickers)).Nodup :=
    initTickers_keys_nodup hnd
  have hpendnd : (runPending catalog doc).Nodup := pendingTickers_nodup hnd1
  have hsc : savedCount b n ≤ n := by
    unfold savedCount
    rw [Nat.mul_comm]
    exact Nat.div_mul_le_self n b
  have hdt : (durableAfterCrash o w catalog doc recs0 b n).tickers
      = (processList o w (initTickers catalog doc.tickers, recs0)
          ((runPending catalog doc).take (savedCount b n))).1 := rfl
  have htake_pre : ((runPending catalog doc).take n).take (savedCount b n)
      = (runPending catalog doc).take (savedCount b n) := by
    rw [List.take_take, Nat.min_eq_left hsc]
  have hnodup_take_n : ((runPending catalog doc).take n).Nodup :=
    (List.take_sublist _ _).nodup hpendnd
  by_cases hmem : id ∈ (runPending catalog doc).take (savedCount b n)
  · have hnodup_take : ((runPending catalog doc).take (savedCount b n)).Nodup :=
      (List.take_sublist _ _).nodup hpendnd
    have hkey : (dictLookup (initTickers catalog doc.tickers) id).isSome := by
      rw [← mem_storeKeys_iff]
      exact mem_pendingTickers_keys (List.take_subset _ _ hmem)
    have hstat := statusOf_processList_mem o w hnodup_take hmem
      (initTickers catalog doc.tickers, recs0) hkey
    rw [hdt] at hdc
    rw [hstat] at hdc
    have hcs : stepStatus o w id = "completed" := Option.some.inj hdc
    have hmem_n : id ∈ (runPending catalog doc).take n := by
      rw [← htake_pre] at hmem
      exact List.take_subset _ _ hmem
    exact mem_recs_processList_completed o w hnodup_take_n hmem_n hcs _
  · rw [hdt, statusOf, lookup_processList_not_mem o w hmem, ← statusOf] at hdc
    rcases hlook : dictLookup (initTickers catalog doc.tickers) id with _ | r
    · rw [statusOf, hlook] at hdc
      exact absurd hdc (by simp)
    · rw [statusOf, hlook] at hdc
      have hrs : r.status = "completed" := Option.some.inj hdc
      have hid_not_pend : id ∉ runPending catalog doc := by
        intro hp
        have := mem_pendingTickers_status hnd1 hp
        rw [statusOf, hlook] at this
        have : r.status = "pending" := Option.some.inj this
        rw [hrs] at this
        exact absurd this (by decide)
      have hrecs0 : id ∈ recs0 := by
        rcases initTickers_lookup_cases hlook with hdoc | hpend
        · exact hinit id (by simp [statusOf, hdoc, hrs])
        · rw [hrs] at hpend
          exact absurd hpend (by decide)
      have hnot_n : id ∉ (runPending catalog doc).take n :=
        fun hc => hid_not_pend (List.take_subset _ _ hc)
      show id ∈ (processList o w (initTickers catalog doc.tickers, recs0)
        ((runPending catalog doc).take n)).2
      rw [recs_processList_not_mem o w hnot_n]
      exact hrecs0

/-- Witness for C9: a one-ticker catalog fetched successfully with a
successful write, crash after the first (saved) batch. -/
theorem completed_implies_record_written_witness :
    "AAA.TO" ∈ (memAfter (fun _ => .completedR sampleData) (fun _ => none)
      [{ yfinance_ticker := "AAA.TO", symbol := "AAA", exchange := "TSX" }]
      load_status_empty [] 1).2 :=
  completed_implies_record_written (fun _ => .completedR sampleData)
    (fun _ => none)
    [{ yfinance_ticker := "AAA.TO", symbol := "AAA", exchange := "TSX" }]
    load_status_empty [] 1 1 (by decide)
    (fun id h => absurd h (by simp [statusOf, dictLookup]))
    "AAA.TO" (by decide)

set_option maxRecDepth 20000 in
/-- C1: `save_status` is not crash-atomic.  It opens the status file
with mode "w" — truncating it in place — and then streams the JSON text;
there is no write-to-temp-then-rename.  Evaluated at a concrete pair of
documents: the crash state right after the truncating `open` (index 1 of
`saveFileStates`) is the empty file, which is neither the previously
saved document nor the new one, so a reader at that crash point finds a
torn store. -/
theorem save_status_crash_truncation :
    (saveFileStates (serializeDoc (save_status load_status_empty))
        { tickers := [("AAA.TO", sampleRec)], stats := ⟨0, 0, 0, 0, 0⟩ })[1]?
      = some "" ∧
    serializeDoc (save_status load_status_empty) ≠ "" ∧
    serializeDoc (save_status
        { tickers := [("AAA.TO", sampleRec)], stats := ⟨0, 0, 0, 0, 0⟩ }) ≠ "" :=
  ⟨by decide, by decide, by decide⟩
